import Mathlib

/-!
Verification of the recipe-app core: ownership-scoped Recipes, Tags and
Ingredients with get-or-create relation reconciliation.

The development shallowly embeds the custom logic of the repository:

* `core/models.py` — `UserManager.create_user` (identity store) and the shapes
  of the `User`, `Recipe`, `Tag` and `Ingredient` models;
* `recipe/serializers.py` — `RecipeSerializer.create`, `RecipeSerializer.update`
  and the `_get_or_create_tags` / `_get_or_create_ingredients` helpers;
* the list/detail endpoints' queryset scoping and filtering, which live in the
  view layer; the view module itself is not part of the sources available here,
  so those operations are modelled from the specification text and are marked
  `Modelled from the spec:` in their doc comments.

Machine-level details that the claims do not touch (password hashing, image
bytes, HTTP plumbing) are left out of the state; `DecimalField(5,2)` prices are
modelled as an integer number of cents.
-/

namespace RecipeApp

/-- A persisted Tag or Ingredient row: `{id, name, user}`.  `Tag` and
`Ingredient` in core/models.py are structurally identical (a `name` plus a
foreign key to the owning user), so one row type serves both kinds. -/
structure Row where
  id : Nat
  user : Nat
  name : String
deriving DecidableEq, Repr

/-- One relation-entity table (the set of persisted rows of one kind) together
with the id sequence used for fresh rows.  The database holds one store for
tags and one for ingredients. -/
structure Store where
  rows : List Row
  nextId : Nat
deriving DecidableEq, Repr

/-- Row predicate used by `objects.get_or_create(user=u, name=n)`. -/
def rowMatches (u : Nat) (n : String) (r : Row) : Bool :=
  r.user == u && r.name == n

/-- Semantics of `Tag.objects.get_or_create(user=u, **tag)` (and the ingredient
analogue) as invoked from recipe/serializers.py: return the existing row for
`(u, n)` when one exists, otherwise insert a fresh row owned by `u` under the
next free id.  With several rows matching `(u, n)` the ORM's underlying `get`
would raise `MultipleObjectsReturned`; the embedding returns the first match,
and the theorems that rely on reuse assume the match is unique. -/
def getOrCreate (st : Store) (u : Nat) (n : String) : Store × Nat :=
  match st.rows.find? (rowMatches u n) with
  | some r => (st, r.id)
  | none => (⟨st.rows ++ [⟨st.nextId, u, n⟩], st.nextId + 1⟩, st.nextId)

/-- Semantics of `instance.tags.add(obj)` (or `.ingredients.add`) on a
many-to-many relation set: adding an already-attached row is a no-op. -/
def addRelation (attached : List Nat) (id : Nat) : List Nat :=
  if id ∈ attached then attached else attached ++ [id]

/-- One iteration of the loop in `RecipeSerializer._get_or_create_tags` /
`_get_or_create_ingredients`: get-or-create the row for the authenticated user
and attach it to the instance's relation set. -/
def reconcileStep (u : Nat) (acc : Store × List Nat) (n : String) : Store × List Nat :=
  ((getOrCreate acc.1 u n).1, addRelation acc.2 (getOrCreate acc.1 u n).2)

/-- The full descriptor loop of `_get_or_create_tags` /
`_get_or_create_ingredients`, threading the store and the instance's attached
ids through `reconcileStep`.  A descriptor `{name: n}` is represented by its
name `n`. -/
def reconcile (st : Store) (u : Nat) (attached : List Nat) (descs : List String) :
    Store × List Nat :=
  descs.foldl (reconcileStep u) (st, attached)

/-- Scalar (non-relational) writable fields of a Recipe, as exposed by
`RecipeSerializer` / `RecipeDetailSerializer`: `title`, `description`,
`time_minutes`, `price`, `link`.  (`id` is read-only, `user` is never a
serializer field, and `image` is handled by a separate serializer/endpoint.) -/
inductive ScalarField
  | title
  | description
  | timeMinutes
  | price
  | link
deriving DecidableEq, Repr

/-- A scalar field value, for stating frame properties uniformly. -/
inductive Value
  | str (v : String)
  | nat (v : Nat)
  | dec (cents : Int)
deriving DecidableEq, Repr

/-- The Recipe model (core/models.py): owner, scalar attributes and the two
many-to-many relation sets, held as lists of row ids. -/
structure Recipe where
  user : Nat
  title : String
  description : String
  timeMinutes : Nat
  price : Int
  link : String
  tags : List Nat
  ingredients : List Nat
deriving DecidableEq, Repr

/-- One `(key, value)` item of the scalar part of `validated_data`: the key is
a scalar field and the value has that field's type. -/
inductive ScalarAssign
  | title (v : String)
  | description (v : String)
  | timeMinutes (v : Nat)
  | price (v : Int)
  | link (v : String)
deriving DecidableEq, Repr

/-- The field (dict key) an item assigns. -/
def ScalarAssign.field : ScalarAssign → ScalarField
  | .title _ => .title
  | .description _ => .description
  | .timeMinutes _ => .timeMinutes
  | .price _ => .price
  | .link _ => .link

/-- Semantics of `setattr(instance, key, value)` for one scalar item. -/
def setattr (r : Recipe) : ScalarAssign → Recipe
  | .title v => { r with title := v }
  | .description v => { r with description := v }
  | .timeMinutes v => { r with timeMinutes := v }
  | .price v => { r with price := v }
  | .link v => { r with link := v }

/-- The `for key, value in validated_data.items(): setattr(instance, key, value)`
loop of `RecipeSerializer.update`. -/
def applyScalars (r : Recipe) (items : List ScalarAssign) : Recipe :=
  items.foldl setattr r

/-- Read one scalar field of a recipe, for stating frame properties. -/
def getScalar (r : Recipe) : ScalarField → Value
  | .title => .str r.title
  | .description => .str r.description
  | .timeMinutes => .nat r.timeMinutes
  | .price => .dec r.price
  | .link => .str r.link

/-- The validated payload reaching `RecipeSerializer.update`: the optional tag
and ingredient descriptor lists plus the scalar items.  A relation key absent
from the payload is `none` (`validated_data.pop(key, None)`); present but empty
is `some []`.  `pop` removes the two relation keys before the `setattr` loops
run, which is why `scalars` ranges over scalar fields only. -/
structure ValidatedData where
  tags : Option (List String)
  ingredients : Option (List String)
  scalars : List ScalarAssign
deriving Repr

/-- The relational database state visible to the modelled operations: the
recipe table (in creation order, with ids), its id sequence, and the tag and
ingredient stores. -/
structure Db where
  recipes : List (Nat × Recipe)
  nextRecipeId : Nat
  tagStore : Store
  ingredientStore : Store
deriving Repr

/-- The `_get_or_create_tags(self, instance, tags)` helper lifted to the
database state: reconcile the descriptors against the tag store and the
instance's tag set. -/
def RecipeSerializer.getOrCreateTags (db : Db) (u : Nat) (inst : Recipe)
    (descs : List String) : Db × Recipe :=
  let p := reconcile db.tagStore u inst.tags descs
  ({ db with tagStore := p.1 }, { inst with tags := p.2 })

/-- The `_get_or_create_ingredients(self, instance, ingredients)` helper lifted
to the database state. -/
def RecipeSerializer.getOrCreateIngredients (db : Db) (u : Nat) (inst : Recipe)
    (descs : List String) : Db × Recipe :=
  let p := reconcile db.ingredientStore u inst.ingredients descs
  ({ db with ingredientStore := p.1 }, { inst with ingredients := p.2 })

/-- The `RecipeSerializer.create` method: pop `tags` and `ingredients`
(defaulting to the empty list), persist the recipe row bound to the
authenticated user with both relation sets empty, then run the get-or-create
helpers for tags and for ingredients.  The ORM persists the row before the
many-to-many adds and the adds write through; the embedding threads the
instance explicitly and stores its final state under the id allocated at
creation. -/
def RecipeSerializer.create (db : Db) (u : Nat) (title description link : String)
    (timeMinutes : Nat) (price : Int) (tagDescs ingDescs : List String) :
    Db × Nat × Recipe :=
  let rid := db.nextRecipeId
  let inst : Recipe := ⟨u, title, description, timeMinutes, price, link, [], []⟩
  let db0 : Db := { db with nextRecipeId := db.nextRecipeId + 1 }
  let p1 := RecipeSerializer.getOrCreateTags db0 u inst tagDescs
  let p2 := RecipeSerializer.getOrCreateIngredients p1.1 u p1.2 ingDescs
  ({ p2.1 with recipes := p2.1.recipes ++ [(rid, p2.2)] }, rid, p2.2)

/-- The `RecipeSerializer.update` method, line for line: pop `tags` and
`ingredients` with default `None`; when a key is present (`is not None`), clear
the instance's relation set of that kind and re-run the get-or-create helper;
then run the scalar `setattr` loop over the remaining items — the source
repeats that loop verbatim a second time — and save. -/
def RecipeSerializer.update (db : Db) (u : Nat) (inst : Recipe) (vd : ValidatedData) :
    Db × Recipe :=
  let p1 :=
    match vd.tags with
    | none => (db, inst)
    | some ds => RecipeSerializer.getOrCreateTags db u { inst with tags := [] } ds
  let p2 :=
    match vd.ingredients with
    | none => p1
    | some ds => RecipeSerializer.getOrCreateIngredients p1.1 u { p1.2 with ingredients := [] } ds
  let inst1 := applyScalars p2.2 vd.scalars
  let inst2 := applyScalars inst1 vd.scalars
  (p2.1, inst2)

/-- Variant of `RecipeSerializer.update` in which the scalar assignment loop
runs once instead of twice; the refinement theorem for the repeated loop
compares the two. -/
def RecipeSerializer.updateSingleLoop (db : Db) (u : Nat) (inst : Recipe)
    (vd : ValidatedData) : Db × Recipe :=
  let p1 :=
    match vd.tags with
    | none => (db, inst)
    | some ds => RecipeSerializer.getOrCreateTags db u { inst with tags := [] } ds
  let p2 :=
    match vd.ingredients with
    | none => p1
    | some ds => RecipeSerializer.getOrCreateIngredients p1.1 u { p1.2 with ingredients := [] } ds
  (p2.1, applyScalars p2.2 vd.scalars)

/-- Modelled from the spec: email normalization (Django's
`BaseUserManager.normalize_email`, framework code outside these sources) — the
portion of the address after the `'@'` is case-folded to lowercase and the
local part before it is left unaltered.  The split point is the last `'@'` of
the address, so the domain portion is the suffix containing no further `'@'`.
This helper finds that split: `some (local, domain)` when the character list
contains an `'@'`, preferring the rightmost one. -/
def splitAtLastAmp : List Char → Option (List Char × List Char)
  | [] => none
  | c :: rest =>
    match splitAtLastAmp rest with
    | some (l, r) => some (c :: l, r)
    | none => if c = '@' then some ([], rest) else none

/-- Modelled from the spec: `normalize_email` itself — lowercase the domain
portion after the last `'@'`, keep the local part; an address with no `'@'` is
returned unchanged. -/
def normalizeEmail (email : String) : String :=
  match splitAtLastAmp email.data with
  | some (l, r) => ⟨l ++ '@' :: r.map Char.toLower⟩
  | none => email

/-- A persisted user account.  The credential is hashed by framework code and
never read by any modelled operation, so only the identity key is kept. -/
structure UserRow where
  id : Nat
  email : String
deriving DecidableEq, Repr

/-- The identity store: persisted users and the id sequence. -/
structure UserStore where
  users : List UserRow
  nextId : Nat
deriving DecidableEq, Repr

/-- The `UserManager.create_user` method (core/models.py): `if not email:
raise ValueError('Email must be provided.')` — an absent (`none`) or empty
email fails before anything is persisted — otherwise the user is saved with
the normalized email.  Failure is an `Except.error` carrying the message, and
the caller's store is untouched on that path. -/
def UserManager.createUser (st : UserStore) (email : Option String) :
    Except String (UserStore × UserRow) :=
  match email with
  | none => .error "Email must be provided."
  | some e =>
    if e = "" then .error "Email must be provided."
    else
      let row : UserRow := ⟨st.nextId, normalizeEmail e⟩
      .ok (⟨st.users ++ [row], st.nextId + 1⟩, row)

/-- Insert a row into a list that is sorted by descending name, keeping the
descending order (used to model the `-name` default ordering of the tag and
ingredient list endpoints). -/
def insertByNameDesc (r : Row) : List Row → List Row
  | [] => [r]
  | x :: xs => if x.name ≤ r.name then r :: x :: xs else x :: insertByNameDesc r xs

/-- Sort rows by descending name (insertion sort). -/
def sortByNameDesc (l : List Row) : List Row :=
  l.foldr insertByNameDesc []

/-- Modelled from the spec: the recipe list endpoint's queryset scoping (the
recipe view module is not among these sources) — the base set is restricted to
the requesting owner and ordered most recently created first (`-id`; ids are
allocated in creation order, so reversing the creation-ordered table gives
that ordering). -/
def listRecipes (db : Db) (owner : Nat) : List (Nat × Recipe) :=
  (db.recipes.filter (fun p => p.2.user == owner)).reverse

/-- Modelled from the spec: the tag list endpoint with no filter (the view
module is not among these sources) — base set restricted to the owner, ordered
reverse-alphabetically by name. -/
def listTags (db : Db) (owner : Nat) : List Row :=
  sortByNameDesc (db.tagStore.rows.filter (fun r => r.user == owner))

/-- Modelled from the spec: the ingredient list endpoint with no filter (the
view module is not among these sources) — base set restricted to the owner,
ordered reverse-alphabetically by name. -/
def listIngredients (db : Db) (owner : Nat) : List Row :=
  sortByNameDesc (db.ingredientStore.rows.filter (fun r => r.user == owner))

/-- Modelled from the spec: the join underlying `assigned_only=true` (the view
module is not among these sources) — for each Recipe of the owner, the owner's
rows of the given kind attached to it; an entity attached to several recipes
occurs once per recipe here, before deduplication. -/
def assignedRows (recipes : List (Nat × Recipe)) (rows : List Row)
    (proj : Recipe → List Nat) (owner : Nat) : List Row :=
  (recipes.filter (fun p => p.2.user == owner)).flatMap
    (fun p => rows.filter (fun r => r.user == owner && (proj p.2).contains r.id))

/-- Modelled from the spec: the tag list endpoint with `assigned_only=true` —
restrict to the owner's tags attached to at least one Recipe of the same
owner, deduplicated, ordered reverse-alphabetically by name. -/
def listTagsAssignedOnly (db : Db) (owner : Nat) : List Row :=
  sortByNameDesc ((assignedRows db.recipes db.tagStore.rows Recipe.tags owner).dedup)

/-- Modelled from the spec: the ingredient list endpoint with
`assigned_only=true`, analogous to the tag one. -/
def listIngredientsAssignedOnly (db : Db) (owner : Nat) : List Row :=
  sortByNameDesc
    ((assignedRows db.recipes db.ingredientStore.rows Recipe.ingredients owner).dedup)

/-- Error surfaced by the detail endpoints when the object lookup fails; the
owner-scoped queryset makes a foreign owner's recipe indistinguishable from a
missing one. -/
inductive ApiError
  | notFound
deriving DecidableEq, Repr

/-- Modelled from the spec: the recipe detail endpoint's object lookup — the
queryset is owner-scoped, so the id is resolved only among the caller's own
recipes. -/
def getObject (db : Db) (owner : Nat) (rid : Nat) : Option (Nat × Recipe) :=
  db.recipes.find? (fun p => p.1 == rid && p.2.user == owner)

/-- Modelled from the spec: an update (PUT/PATCH) on the recipe detail endpoint
(the view module is not among these sources) — resolve the id through the
owner-scoped queryset, failing with not-found when the recipe is missing or
foreign, otherwise run `RecipeSerializer.update` and store the result; on the
error path the database is returned to the caller unchanged. -/
def updateRecipeEndpoint (db : Db) (owner : Nat) (rid : Nat) (vd : ValidatedData) :
    Except ApiError Db :=
  match getObject db owner rid with
  | none => .error .notFound
  | some p =>
    let q := RecipeSerializer.update db owner p.2 vd
    .ok { q.1 with recipes := q.1.recipes.map (fun x => if x.1 == rid then (rid, q.2) else x) }

/-- Modelled from the spec: a delete on the recipe detail endpoint — resolve
the id through the owner-scoped queryset, failing with not-found when the
recipe is missing or foreign, otherwise remove the row (tags and ingredients
are detached, not deleted). -/
def deleteRecipeEndpoint (db : Db) (owner : Nat) (rid : Nat) : Except ApiError Db :=
  match getObject db owner rid with
  | none => .error .notFound
  | some _ => .ok { db with recipes := db.recipes.filter (fun p => p.1 != rid) }

/-! ### Lemmas about `addRelation`, `getOrCreate` and `reconcile` -/

theorem mem_addRelation (attached : List Nat) (id a : Nat) :
    a ∈ addRelation attached id ↔ a ∈ attached ∨ a = id := by
  unfold addRelation
  split
  · rename_i h
    constructor
    · exact Or.inl
    · rintro (ha | rfl)
      · exact ha
      · exact h
  · simp

theorem self_mem_addRelation (attached : List Nat) (id : Nat) :
    id ∈ addRelation attached id :=
  (mem_addRelation attached id id).mpr (Or.inr rfl)

theorem mem_addRelation_of_mem (attached : List Nat) (id a : Nat) (ha : a ∈ attached) :
    a ∈ addRelation attached id :=
  (mem_addRelation attached id a).mpr (Or.inl ha)

theorem getOrCreate_rows_mono (st : Store) (u : Nat) (n : String) (r : Row)
    (hr : r ∈ st.rows) : r ∈ (getOrCreate st u n).1.rows := by
  unfold getOrCreate
  cases hf : st.rows.find? (rowMatches u n) with
  | some r0 => exact hr
  | none => exact List.mem_append_left _ hr

theorem getOrCreate_returns_owned (st : Store) (u : Nat) (n : String) :
    ∃ r ∈ (getOrCreate st u n).1.rows,
      r.id = (getOrCreate st u n).2 ∧ r.user = u ∧ r.name = n := by
  unfold getOrCreate
  cases hf : st.rows.find? (rowMatches u n) with
  | some r0 =>
    have hmem := List.mem_of_find?_eq_some hf
    have hmatch := List.find?_some hf
    simp only [rowMatches, Bool.and_eq_true, beq_iff_eq] at hmatch
    exact ⟨r0, hmem, rfl, hmatch.1, hmatch.2⟩
  | none =>
    refine ⟨⟨st.nextId, u, n⟩, ?_, rfl, rfl, rfl⟩
    exact List.mem_append_right _ (List.mem_singleton.mpr rfl)

theorem getOrCreate_store_of_exists (st : Store) (u : Nat) (n : String)
    (h : ∃ r ∈ st.rows, r.user = u ∧ r.name = n) : (getOrCreate st u n).1 = st := by
  obtain ⟨r, hr, hu, hn⟩ := h
  unfold getOrCreate
  cases hf : st.rows.find? (rowMatches u n) with
  | some r0 => rfl
  | none =>
    exfalso
    have := List.find?_eq_none.mp hf r hr
    simp [rowMatches, hu, hn] at this

theorem reconcile_nil (st : Store) (u : Nat) (attached : List Nat) :
    reconcile st u attached [] = (st, attached) := rfl

theorem reconcile_cons (st : Store) (u : Nat) (attached : List Nat) (n : String)
    (ds : List String) :
    reconcile st u attached (n :: ds) =
      reconcile (getOrCreate st u n).1 u (addRelation attached (getOrCreate st u n).2) ds := rfl

theorem reconcile_rows_mono (u : Nat) (ds : List String) :
    ∀ st attached (r : Row), r ∈ st.rows → r ∈ (reconcile st u attached ds).1.rows := by
  induction ds with
  | nil => intro st attached r hr; exact hr
  | cons n ds ih =>
    intro st attached r hr
    rw [reconcile_cons]
    exact ih _ _ r (getOrCreate_rows_mono st u n r hr)

theorem reconcile_attached_mono (u : Nat) (ds : List String) :
    ∀ st attached (a : Nat), a ∈ attached → a ∈ (reconcile st u attached ds).2 := by
  induction ds with
  | nil => intro st attached a ha; exact ha
  | cons n ds ih =>
    intro st attached a ha
    rw [reconcile_cons]
    exact ih _ _ a (mem_addRelation_of_mem _ _ a ha)

/-- Every id attached by the descriptor loop is either an id that was already
attached, or the id of a row of the final store that is owned by the
authenticated user and named by one of the descriptors. -/
theorem reconcile_provenance (u : Nat) (ds : List String) :
    ∀ st attached, ∀ a ∈ (reconcile st u attached ds).2,
      a ∈ attached ∨
        ∃ r ∈ (reconcile st u attached ds).1.rows,
          r.id = a ∧ r.user = u ∧ r.name ∈ ds := by
  induction ds with
  | nil => intro st attached a ha; exact Or.inl ha
  | cons n ds ih =>
    intro st attached a ha
    rw [reconcile_cons] at ha ⊢
    rcases ih _ _ a ha with h | ⟨r, hr, hid, hu, hn⟩
    · rcases (mem_addRelation _ _ a).mp h with h' | rfl
      · exact Or.inl h'
      · obtain ⟨r, hr, hid, hu, hn⟩ := getOrCreate_returns_owned st u n
        refine Or.inr ⟨r, ?_, hid, hu, ?_⟩
        · exact reconcile_rows_mono u ds _ _ r hr
        · exact hn ▸ List.mem_cons_self n ds
    · exact Or.inr ⟨r, hr, hid, hu, List.mem_cons_of_mem n hn⟩

/-- Every descriptor name ends up represented: after the loop some attached id
resolves to a row of the final store owned by the user and carrying that
name. -/
theorem reconcile_complete (u : Nat) (ds : List String) :
    ∀ st attached, ∀ n ∈ ds,
      ∃ a ∈ (reconcile st u attached ds).2,
        ∃ r ∈ (reconcile st u attached ds).1.rows, r.id = a ∧ r.user = u ∧ r.name = n := by
  induction ds with
  | nil => intro st attached n hn; exact absurd hn (List.not_mem_nil n)
  | cons m ds ih =>
    intro st attached n hn
    rw [reconcile_cons]
    rcases List.mem_cons.mp hn with rfl | hn'
    · obtain ⟨r, hr, hid, hu, hname⟩ := getOrCreate_returns_owned st u n
      refine ⟨(getOrCreate st u n).2, ?_, r, ?_, hid, hu, hname⟩
      · exact reconcile_attached_mono u ds _ _ _ (self_mem_addRelation _ _)
      · exact reconcile_rows_mono u ds _ _ r hr
    · exact ih _ _ n hn'

/-- Every id of `attached` names a row of `st` owned by `u`. -/
def ownedRows (st : Store) (u : Nat) (attached : List Nat) : Prop :=
  ∀ a ∈ attached, ∃ r ∈ st.rows, r.id = a ∧ r.user = u

theorem reconcile_ownedRows (u : Nat) (ds : List String) :
    ∀ st attached, ownedRows st u attached →
      ownedRows (reconcile st u attached ds).1 u (reconcile st u attached ds).2 := by
  induction ds with
  | nil => intro st attached h; exact h
  | cons n ds ih =>
    intro st attached h
    rw [reconcile_cons]
    apply ih
    intro a ha
    rcases (mem_addRelation _ _ a).mp ha with h' | rfl
    · obtain ⟨r, hr, hid, hu⟩ := h a h'
      exact ⟨r, getOrCreate_rows_mono st u n r hr, hid, hu⟩
    · obtain ⟨r, hr, hid, hu, _⟩ := getOrCreate_returns_owned st u n
      exact ⟨r, hr, hid, hu⟩

/-! ### Lemmas about the scalar `setattr` loop -/

theorem setattr_user (r : Recipe) (a : ScalarAssign) : (setattr r a).user = r.user := by
  cases a <;> rfl

theorem setattr_tags (r : Recipe) (a : ScalarAssign) : (setattr r a).tags = r.tags := by
  cases a <;> rfl

theorem setattr_ingredients (r : Recipe) (a : ScalarAssign) :
    (setattr r a).ingredients = r.ingredients := by
  cases a <;> rfl

theorem applyScalars_user (items : List ScalarAssign) :
    ∀ r : Recipe, (applyScalars r items).user = r.user := by
  induction items with
  | nil => intro r; rfl
  | cons a t ih => intro r; rw [applyScalars, List.foldl_cons, ← applyScalars, ih, setattr_user]

theorem applyScalars_tags (items : List ScalarAssign) :
    ∀ r : Recipe, (applyScalars r items).tags = r.tags := by
  induction items with
  | nil => intro r; rfl
  | cons a t ih => intro r; rw [applyScalars, List.foldl_cons, ← applyScalars, ih, setattr_tags]

theorem applyScalars_ingredients (items : List ScalarAssign) :
    ∀ r : Recipe, (applyScalars r items).ingredients = r.ingredients := by
  induction items with
  | nil => intro r; rfl
  | cons a t ih =>
    intro r; rw [applyScalars, List.foldl_cons, ← applyScalars, ih, setattr_ingredients]

theorem getScalar_setattr_ne (r : Recipe) (a : ScalarAssign) (f : ScalarField)
    (h : f ≠ a.field) : getScalar (setattr r a) f = getScalar r f := by
  cases a <;> cases f <;> simp_all [setattr, getScalar, ScalarAssign.field]

theorem getScalar_setattr_field (r r' : Recipe) (a : ScalarAssign) :
    getScalar (setattr r a) a.field = getScalar (setattr r' a) a.field := by
  cases a <;> rfl

/-- Scalar fields outside the items' keys are untouched by the loop. -/
theorem applyScalars_frame (items : List ScalarAssign) :
    ∀ (r : Recipe) (f : ScalarField), f ∉ items.map ScalarAssign.field →
      getScalar (applyScalars r items) f = getScalar r f := by
  induction items with
  | nil => intro r f _; rfl
  | cons a t ih =>
    intro r f hf
    rw [List.map_cons, List.mem_cons] at hf
    push_neg at hf
    rw [applyScalars, List.foldl_cons, ← applyScalars, ih _ f hf.2,
      getScalar_setattr_ne r a f hf.1]

/-- Two recipes agreeing on all five scalar projections and on the owner and
relation sets are equal. -/
theorem Recipe.eq_of_fields (r r' : Recipe) (h : ∀ f, getScalar r f = getScalar r' f)
    (hu : r.user = r'.user) (ht : r.tags = r'.tags) (hi : r.ingredients = r'.ingredients) :
    r = r' := by
  cases r
  cases r'
  have h1 := h .title
  have h2 := h .description
  have h3 := h .timeMinutes
  have h4 := h .price
  have h5 := h .link
  simp only [getScalar, Value.str.injEq, Value.nat.injEq, Value.dec.injEq] at h1 h2 h3 h4 h5
  simp_all

/-- The loop's result depends on the starting instance only through the scalar
fields it does not assign (and the owner and relation sets). -/
theorem applyScalars_congr (items : List ScalarAssign) :
    ∀ r r' : Recipe,
      (∀ f, f ∉ items.map ScalarAssign.field → getScalar r f = getScalar r' f) →
      r.user = r'.user → r.tags = r'.tags → r.ingredients = r'.ingredients →
      applyScalars r items = applyScalars r' items := by
  induction items with
  | nil =>
    intro r r' h hu ht hi
    exact Recipe.eq_of_fields r r' (fun f => h f (List.not_mem_nil f)) hu ht hi
  | cons a t ih =>
    intro r r' h hu ht hi
    show applyScalars (setattr r a) t = applyScalars (setattr r' a) t
    apply ih
    · intro f hf
      by_cases hfa : f = a.field
      · subst hfa
        exact getScalar_setattr_field r r' a
      · rw [getScalar_setattr_ne r a f hfa, getScalar_setattr_ne r' a f hfa]
        apply h
        rw [List.map_cons, List.mem_cons]
        push_neg
        exact ⟨hfa, hf⟩
    · rw [setattr_user, setattr_user, hu]
    · rw [setattr_tags, setattr_tags, ht]
    · rw [setattr_ingredients, setattr_ingredients, hi]

/-- Running the `setattr` loop a second time over the same items changes
nothing. -/
theorem applyScalars_idem (r : Recipe) (items : List ScalarAssign) :
    applyScalars (applyScalars r items) items = applyScalars r items := by
  apply applyScalars_congr
  · intro f hf
    exact applyScalars_frame items r f hf
  · exact applyScalars_user items r
  · exact applyScalars_tags items r
  · exact applyScalars_ingredients items r

/-! ### Lemmas about the name-descending insertion sort -/

theorem mem_insertByNameDesc (r a : Row) (l : List Row) :
    a ∈ insertByNameDesc r l ↔ a = r ∨ a ∈ l := by
  induction l with
  | nil => simp [insertByNameDesc]
  | cons x xs ih =>
    rw [insertByNameDesc]
    split
    · simp
    · rw [List.mem_cons, ih, List.mem_cons]
      tauto

theorem count_insertByNameDesc (r a : Row) (l : List Row) :
    (insertByNameDesc r l).count a = (r :: l).count a := by
  induction l with
  | nil => rfl
  | cons x xs ih =>
    rw [insertByNameDesc]
    split
    · rfl
    · rw [List.count_cons, ih, List.count_cons, List.count_cons, List.count_cons]
      omega

theorem mem_sortByNameDesc (a : Row) (l : List Row) :
    a ∈ sortByNameDesc l ↔ a ∈ l := by
  induction l with
  | nil => simp [sortByNameDesc]
  | cons x xs ih =>
    show a ∈ insertByNameDesc x (sortByNameDesc xs) ↔ _
    rw [mem_insertByNameDesc, ih, List.mem_cons]

theorem count_sortByNameDesc (a : Row) (l : List Row) :
    (sortByNameDesc l).count a = l.count a := by
  induction l with
  | nil => rfl
  | cons x xs ih =>
    show (insertByNameDesc x (sortByNameDesc xs)).count a = _
    rw [count_insertByNameDesc, List.count_cons, List.count_cons, ih]

theorem nodup_sortByNameDesc (l : List Row) (h : l.Nodup) : (sortByNameDesc l).Nodup := by
  rw [List.nodup_iff_count_le_one] at h ⊢
  intro a
  rw [count_sortByNameDesc]
  exact h a

/-! ### Component lemmas for `RecipeSerializer.update` -/

theorem update_tags_of_none (db : Db) (u : Nat) (inst : Recipe) (ing : Option (List String))
    (sc : List ScalarAssign) :
    (RecipeSerializer.update db u inst ⟨none, ing, sc⟩).2.tags = inst.tags := by
  cases ing <;>
    simp [RecipeSerializer.update, RecipeSerializer.getOrCreateIngredients, applyScalars_tags]

theorem update_tagStore_of_none (db : Db) (u : Nat) (inst : Recipe)
    (ing : Option (List String)) (sc : List ScalarAssign) :
    (RecipeSerializer.update db u inst ⟨none, ing, sc⟩).1.tagStore = db.tagStore := by
  cases ing <;>
    simp [RecipeSerializer.update, RecipeSerializer.getOrCreateIngredients]

theorem update_tags_of_some (db : Db) (u : Nat) (inst : Recipe) (ds : List String)
    (ing : Option (List String)) (sc : List ScalarAssign) :
    (RecipeSerializer.update db u inst ⟨some ds, ing, sc⟩).2.tags =
      (reconcile db.tagStore u [] ds).2 := by
  cases ing <;>
    simp [RecipeSerializer.update, RecipeSerializer.getOrCreateTags,
      RecipeSerializer.getOrCreateIngredients, applyScalars_tags]

theorem update_tagStore_of_some (db : Db) (u : Nat) (inst : Recipe) (ds : List String)
    (ing : Option (List String)) (sc : List ScalarAssign) :
    (RecipeSerializer.update db u inst ⟨some ds, ing, sc⟩).1.tagStore =
      (reconcile db.tagStore u [] ds).1 := by
  cases ing <;>
    simp [RecipeSerializer.update, RecipeSerializer.getOrCreateTags,
      RecipeSerializer.getOrCreateIngredients]

theorem update_ingredients_of_none (db : Db) (u : Nat) (inst : Recipe)
    (tg : Option (List String)) (sc : List ScalarAssign) :
    (RecipeSerializer.update db u inst ⟨tg, none, sc⟩).2.ingredients = inst.ingredients := by
  cases tg <;>
    simp [RecipeSerializer.update, RecipeSerializer.getOrCreateTags, applyScalars_ingredients]

theorem update_ingredientStore_of_none (db : Db) (u : Nat) (inst : Recipe)
    (tg : Option (List String)) (sc : List ScalarAssign) :
    (RecipeSerializer.update db u inst ⟨tg, none, sc⟩).1.ingredientStore =
      db.ingredientStore := by
  cases tg <;>
    simp [RecipeSerializer.update, RecipeSerializer.getOrCreateTags]

theorem update_ingredients_of_some (db : Db) (u : Nat) (inst : Recipe) (ds : List String)
    (tg : Option (List String)) (sc : List ScalarAssign) :
    (RecipeSerializer.update db u inst ⟨tg, some ds, sc⟩).2.ingredients =
      (reconcile db.ingredientStore u [] ds).2 := by
  cases tg <;>
    simp [RecipeSerializer.update, RecipeSerializer.getOrCreateTags,
      RecipeSerializer.getOrCreateIngredients, applyScalars_ingredients]

theorem update_ingredientStore_of_some (db : Db) (u : Nat) (inst : Recipe) (ds : List String)
    (tg : Option (List String)) (sc : List ScalarAssign) :
    (RecipeSerializer.update db u inst ⟨tg, some ds, sc⟩).1.ingredientStore =
      (reconcile db.ingredientStore u [] ds).1 := by
  cases tg <;>
    simp [RecipeSerializer.update, RecipeSerializer.getOrCreateTags,
      RecipeSerializer.getOrCreateIngredients]

theorem update_user (db : Db) (u : Nat) (inst : Recipe) (vd : ValidatedData) :
    (RecipeSerializer.update db u inst vd).2.user = inst.user := by
  obtain ⟨tg, ing, sc⟩ := vd
  cases tg <;> cases ing <;>
    simp [RecipeSerializer.update, RecipeSerializer.getOrCreateTags,
      RecipeSerializer.getOrCreateIngredients, applyScalars_user]

/-! ### Claims -/

/-- C10: `RecipeSerializer.update` runs its scalar-field assignment loop over
`validated_data` twice in sequence; for every database state, authenticated
user, instance and validated payload, the state after the double application
equals the state after a single application of the loop — the repetition is
behaviorally redundant. -/
theorem update_scalar_loop_repetition_redundant (db : Db) (u : Nat) (inst : Recipe)
    (vd : ValidatedData) :
    RecipeSerializer.update db u inst vd = RecipeSerializer.updateSingleLoop db u inst vd := by
  simp only [RecipeSerializer.update, RecipeSerializer.updateSingleLoop, applyScalars_idem]

/-- C9: a partial recipe update whose payload omits the tag and ingredient keys
changes nothing but the scalar fields it names: every scalar field not in the
payload, the owner, both relation sets and the whole database state are
unchanged afterward. -/
theorem update_preserves_untouched_fields (db : Db) (u : Nat) (inst : Recipe)
    (vd : ValidatedData) (htg : vd.tags = none) (hing : vd.ingredients = none) :
    (∀ f, f ∉ vd.scalars.map ScalarAssign.field →
      getScalar (RecipeSerializer.update db u inst vd).2 f = getScalar inst f) ∧
    (RecipeSerializer.update db u inst vd).2.user = inst.user ∧
    (RecipeSerializer.update db u inst vd).2.tags = inst.tags ∧
    (RecipeSerializer.update db u inst vd).2.ingredients = inst.ingredients ∧
    (RecipeSerializer.update db u inst vd).1 = db := by
  obtain ⟨tg, ing, sc⟩ := vd
  have h1 : tg = none := htg
  have h2 : ing = none := hing
  subst h1
  subst h2
  have hred : RecipeSerializer.update db u inst ⟨none, none, sc⟩ =
      (db, applyScalars (applyScalars inst sc) sc) := rfl
  rw [hred]
  refine ⟨?_, ?_, ?_, ?_, rfl⟩
  · intro f hf
    rw [applyScalars_frame sc _ f hf, applyScalars_frame sc _ f hf]
  · rw [applyScalars_user, applyScalars_user]
  · rw [applyScalars_tags, applyScalars_tags]
  · rw [applyScalars_ingredients, applyScalars_ingredients]

/-- Witness for C9: patching only `title` on a concrete recipe leaves `link`
and the attached tag set as they were. -/
theorem update_preserves_untouched_fields_witness :
    getScalar (RecipeSerializer.update ⟨[], 0, ⟨[], 0⟩, ⟨[], 0⟩⟩ 1
        ⟨1, "Old", "D", 5, 100, "L", [2], [3]⟩
        ⟨none, none, [.title "New"]⟩).2 .link = .str "L" ∧
    (RecipeSerializer.update ⟨[], 0, ⟨[], 0⟩, ⟨[], 0⟩⟩ 1
        ⟨1, "Old", "D", 5, 100, "L", [2], [3]⟩
        ⟨none, none, [.title "New"]⟩).2.tags = [2] := by
  have h := update_preserves_untouched_fields ⟨[], 0, ⟨[], 0⟩, ⟨[], 0⟩⟩ 1
    ⟨1, "Old", "D", 5, 100, "L", [2], [3]⟩ ⟨none, none, [.title "New"]⟩ rfl rfl
  exact ⟨h.1 .link (by decide), h.2.2.1⟩

/-- C2: recipe-update relation-key policy — a relation key absent from the
payload leaves that relation set untouched; a present key (including an empty
list) fully clears the existing set of that kind and repopulates it from the
descriptors alone (every resulting attachment is a row of the requesting user
named by a descriptor, and every descriptor name is represented), so an empty
list leaves zero attachments of that kind. -/
theorem update_relation_key_policy (db : Db) (u : Nat) (inst : Recipe) (vd : ValidatedData) :
    (vd.tags = none → (RecipeSerializer.update db u inst vd).2.tags = inst.tags) ∧
    (vd.ingredients = none →
      (RecipeSerializer.update db u inst vd).2.ingredients = inst.ingredients) ∧
    (∀ ds, vd.tags = some ds →
      (∀ a ∈ (RecipeSerializer.update db u inst vd).2.tags,
        ∃ r ∈ (RecipeSerializer.update db u inst vd).1.tagStore.rows,
          r.id = a ∧ r.user = u ∧ r.name ∈ ds) ∧
      (∀ n ∈ ds, ∃ a ∈ (RecipeSerializer.update db u inst vd).2.tags,
        ∃ r ∈ (RecipeSerializer.update db u inst vd).1.tagStore.rows,
          r.id = a ∧ r.user = u ∧ r.name = n)) ∧
    (∀ ds, vd.ingredients = some ds →
      (∀ a ∈ (RecipeSerializer.update db u inst vd).2.ingredients,
        ∃ r ∈ (RecipeSerializer.update db u inst vd).1.ingredientStore.rows,
          r.id = a ∧ r.user = u ∧ r.name ∈ ds) ∧
      (∀ n ∈ ds, ∃ a ∈ (RecipeSerializer.update db u inst vd).2.ingredients,
        ∃ r ∈ (RecipeSerializer.update db u inst vd).1.ingredientStore.rows,
          r.id = a ∧ r.user = u ∧ r.name = n)) ∧
    (vd.tags = some [] → (RecipeSerializer.update db u inst vd).2.tags = []) ∧
    (vd.ingredients = some [] →
      (RecipeSerializer.update db u inst vd).2.ingredients = []) := by
  obtain ⟨tg, ing, sc⟩ := vd
  refine ⟨?_, ?_, ?_, ?_, ?_, ?_⟩
  · intro h
    have h' : tg = none := h
    subst h'
    exact update_tags_of_none db u inst ing sc
  · intro h
    have h' : ing = none := h
    subst h'
    exact update_ingredients_of_none db u inst tg sc
  · intro ds h
    have h' : tg = some ds := h
    subst h'
    rw [update_tags_of_some, update_tagStore_of_some]
    constructor
    · intro a ha
      rcases reconcile_provenance u ds db.tagStore [] a ha with h0 | hex
      · exact absurd h0 (List.not_mem_nil a)
      · exact hex
    · intro n hn
      exact reconcile_complete u ds db.tagStore [] n hn
  · intro ds h
    have h' : ing = some ds := h
    subst h'
    rw [update_ingredients_of_some, update_ingredientStore_of_some]
    constructor
    · intro a ha
      rcases reconcile_provenance u ds db.ingredientStore [] a ha with h0 | hex
      · exact absurd h0 (List.not_mem_nil a)
      · exact hex
    · intro n hn
      exact reconcile_complete u ds db.ingredientStore [] n hn
  · intro h
    have h' : tg = some [] := h
    subst h'
    rw [update_tags_of_some, reconcile_nil]
  · intro h
    have h' : ing = some [] := h
    subst h'
    rw [update_ingredients_of_some, reconcile_nil]

/-- Witness for C2: patching a concrete recipe with `tags: []` empties its tag
set while its ingredient set (key absent) survives. -/
theorem update_relation_key_policy_witness :
    (RecipeSerializer.update ⟨[], 0, ⟨[⟨0, 1, "Breakfast"⟩], 1⟩, ⟨[], 0⟩⟩ 1
        ⟨1, "T", "D", 5, 100, "L", [0], [7]⟩ ⟨some [], none, []⟩).2.tags = [] ∧
    (RecipeSerializer.update ⟨[], 0, ⟨[⟨0, 1, "Breakfast"⟩], 1⟩, ⟨[], 0⟩⟩ 1
        ⟨1, "T", "D", 5, 100, "L", [0], [7]⟩ ⟨some [], none, []⟩).2.ingredients = [7] := by
  have h := update_relation_key_policy ⟨[], 0, ⟨[⟨0, 1, "Breakfast"⟩], 1⟩, ⟨[], 0⟩⟩ 1
    ⟨1, "T", "D", 5, 100, "L", [0], [7]⟩ ⟨some [], none, []⟩
  exact ⟨h.2.2.2.2.1 rfl, h.2.1 rfl⟩

/-- C3: get-or-create reconciliation reuses and deduplicates — when a row for
`(owner, name)` already exists, reconciling a descriptor with that name leaves
the store unchanged (so the row count for `(owner, name)` stays what it was,
in particular 1) and attaches an existing row; and a descriptor list naming
the same name twice yields exactly one attachment, not two. -/
theorem reconcile_reuses_and_deduplicates (st : Store) (u : Nat) (att : List Nat)
    (n : String) (r0 : Row) (h0 : r0 ∈ st.rows) (hu : r0.user = u) (hn : r0.name = n) :
    ((reconcile st u att [n]).1 = st ∧
      ∃ r ∈ st.rows, r.user = u ∧ r.name = n ∧ r.id ∈ (reconcile st u att [n]).2) ∧
    ∀ (st' : Store) (m : String), ((reconcile st' u [] [m, m]).2).length = 1 := by
  have hex : ∃ r ∈ st.rows, r.user = u ∧ r.name = n := ⟨r0, h0, hu, hn⟩
  have hst := getOrCreate_store_of_exists st u n hex
  constructor
  · constructor
    · exact hst
    · obtain ⟨r, hr, hid, hu', hn'⟩ := getOrCreate_returns_owned st u n
      rw [hst] at hr
      refine ⟨r, hr, hu', hn', ?_⟩
      show r.id ∈ addRelation att (getOrCreate st u n).2
      rw [hid]
      exact self_mem_addRelation att _
  · intro st' m
    cases hf : st'.rows.find? (rowMatches u m) with
    | some r =>
      show (addRelation (addRelation [] (getOrCreate st' u m).2)
        (getOrCreate (getOrCreate st' u m).1 u m).2).length = 1
      have h1 : getOrCreate st' u m = (st', r.id) := by
        rw [getOrCreate, hf]
      rw [h1]
      show (addRelation (addRelation [] r.id) (getOrCreate st' u m).2).length = 1
      rw [h1]
      simp [addRelation]
    | none =>
      show (addRelation (addRelation [] (getOrCreate st' u m).2)
        (getOrCreate (getOrCreate st' u m).1 u m).2).length = 1
      have h1 : getOrCreate st' u m =
          (⟨st'.rows ++ [⟨st'.nextId, u, m⟩], st'.nextId + 1⟩, st'.nextId) := by
        rw [getOrCreate, hf]
      rw [h1]
      have h2 : (⟨st'.rows ++ [⟨st'.nextId, u, m⟩], st'.nextId + 1⟩ : Store).rows.find?
          (rowMatches u m) = some (⟨st'.nextId, u, m⟩ : Row) := by
        show (st'.rows ++ [(⟨st'.nextId, u, m⟩ : Row)]).find? (rowMatches u m) = _
        rw [List.find?_append, hf]
        simp [rowMatches]
      have h3 : getOrCreate ⟨st'.rows ++ [⟨st'.nextId, u, m⟩], st'.nextId + 1⟩ u m =
          (⟨st'.rows ++ [⟨st'.nextId, u, m⟩], st'.nextId + 1⟩, st'.nextId) := by
        rw [getOrCreate, h2]
      rw [h3]
      simp [addRelation]

/-- Witness for C3: with the single row `(user 1, "Vegan")` in the store,
reconciling `[{name:"Vegan"}]` leaves the store unchanged and reconciling
`[{name:"Vegan"}, {name:"Vegan"}]` attaches exactly one row. -/
theorem reconcile_reuses_and_deduplicates_witness :
    (reconcile ⟨[⟨0, 1, "Vegan"⟩], 1⟩ 1 [] ["Vegan"]).1 = ⟨[⟨0, 1, "Vegan"⟩], 1⟩ ∧
    ((reconcile ⟨[⟨0, 1, "Vegan"⟩], 1⟩ 1 [] ["Vegan", "Vegan"]).2).length = 1 := by
  have h := reconcile_reuses_and_deduplicates ⟨[⟨0, 1, "Vegan"⟩], 1⟩ 1 [] "Vegan"
    ⟨0, 1, "Vegan"⟩ (by simp) rfl rfl
  exact ⟨h.1.1, h.2 ⟨[⟨0, 1, "Vegan"⟩], 1⟩ "Vegan"⟩

/-! Component lemmas for `RecipeSerializer.create`. -/

theorem create_user_eq (db : Db) (u : Nat) (t d l : String) (tm : Nat) (pr : Int)
    (tds ids : List String) :
    (RecipeSerializer.create db u t d l tm pr tds ids).2.2.user = u := by
  simp [RecipeSerializer.create, RecipeSerializer.getOrCreateTags,
    RecipeSerializer.getOrCreateIngredients]

theorem create_tags_eq (db : Db) (u : Nat) (t d l : String) (tm : Nat) (pr : Int)
    (tds ids : List String) :
    (RecipeSerializer.create db u t d l tm pr tds ids).2.2.tags =
      (reconcile db.tagStore u [] tds).2 := by
  simp [RecipeSerializer.create, RecipeSerializer.getOrCreateTags,
    RecipeSerializer.getOrCreateIngredients]

theorem create_tagStore_eq (db : Db) (u : Nat) (t d l : String) (tm : Nat) (pr : Int)
    (tds ids : List String) :
    (RecipeSerializer.create db u t d l tm pr tds ids).1.tagStore =
      (reconcile db.tagStore u [] tds).1 := by
  simp [RecipeSerializer.create, RecipeSerializer.getOrCreateTags,
    RecipeSerializer.getOrCreateIngredients]

theorem create_ingredients_eq (db : Db) (u : Nat) (t d l : String) (tm : Nat) (pr : Int)
    (tds ids : List String) :
    (RecipeSerializer.create db u t d l tm pr tds ids).2.2.ingredients =
      (reconcile db.ingredientStore u [] ids).2 := by
  simp [RecipeSerializer.create, RecipeSerializer.getOrCreateTags,
    RecipeSerializer.getOrCreateIngredients]

theorem create_ingredientStore_eq (db : Db) (u : Nat) (t d l : String) (tm : Nat) (pr : Int)
    (tds ids : List String) :
    (RecipeSerializer.create db u t d l tm pr tds ids).1.ingredientStore =
      (reconcile db.ingredientStore u [] ids).1 := by
  simp [RecipeSerializer.create, RecipeSerializer.getOrCreateTags,
    RecipeSerializer.getOrCreateIngredients]

theorem ownedRows_nil (st : Store) (u : Nat) : ownedRows st u [] := by
  intro a ha
  exact absurd ha (List.not_mem_nil a)

/-- C4: same-owner relation invariant — after a recipe create, and after an
update of an instance whose prior attachments satisfy it, every tag and
ingredient attached to the resulting recipe is a row of the resulting store
owned by the same user as the recipe; reconciliation resolves or creates rows
scoped to the requesting owner only. -/
theorem same_owner_relation_invariant (db : Db) (u : Nat) (t d l : String) (tm : Nat)
    (pr : Int) (tds ids : List String) (inst : Recipe) (vd : ValidatedData) :
    ((RecipeSerializer.create db u t d l tm pr tds ids).2.2.user = u ∧
      ownedRows (RecipeSerializer.create db u t d l tm pr tds ids).1.tagStore u
        (RecipeSerializer.create db u t d l tm pr tds ids).2.2.tags ∧
      ownedRows (RecipeSerializer.create db u t d l tm pr tds ids).1.ingredientStore u
        (RecipeSerializer.create db u t d l tm pr tds ids).2.2.ingredients) ∧
    (inst.user = u → ownedRows db.tagStore u inst.tags →
      ownedRows db.ingredientStore u inst.ingredients →
      (RecipeSerializer.update db u inst vd).2.user = u ∧
      ownedRows (RecipeSerializer.update db u inst vd).1.tagStore u
        (RecipeSerializer.update db u inst vd).2.tags ∧
      ownedRows (RecipeSerializer.update db u inst vd).1.ingredientStore u
        (RecipeSerializer.update db u inst vd).2.ingredients) := by
  constructor
  · refine ⟨create_user_eq db u t d l tm pr tds ids, ?_, ?_⟩
    · rw [create_tags_eq, create_tagStore_eq]
      exact reconcile_ownedRows u tds db.tagStore [] (ownedRows_nil _ u)
    · rw [create_ingredients_eq, create_ingredientStore_eq]
      exact reconcile_ownedRows u ids db.ingredientStore [] (ownedRows_nil _ u)
  · intro huser htag hing
    refine ⟨by rw [update_user]; exact huser, ?_, ?_⟩
    · obtain ⟨tg, ing, sc⟩ := vd
      cases tg with
      | none =>
        rw [update_tags_of_none, update_tagStore_of_none]
        exact htag
      | some ds =>
        rw [update_tags_of_some, update_tagStore_of_some]
        exact reconcile_ownedRows u ds db.tagStore [] (ownedRows_nil _ u)
    · obtain ⟨tg, ing, sc⟩ := vd
      cases ing with
      | none =>
        rw [update_ingredients_of_none, update_ingredientStore_of_none]
        exact hing
      | some ds =>
        rw [update_ingredients_of_some, update_ingredientStore_of_some]
        exact reconcile_ownedRows u ds db.ingredientStore [] (ownedRows_nil _ u)

/-- Witness for C4: creating a recipe for user 1 with a tag descriptor in an
empty database yields attachments owned by user 1, and updating it afterwards
keeps that. -/
theorem same_owner_relation_invariant_witness :
    ownedRows (RecipeSerializer.create ⟨[], 0, ⟨[], 0⟩, ⟨[], 0⟩⟩ 1 "T" "D" "L" 5 100
        ["Vegan"] []).1.tagStore 1
      (RecipeSerializer.create ⟨[], 0, ⟨[], 0⟩, ⟨[], 0⟩⟩ 1 "T" "D" "L" 5 100
        ["Vegan"] []).2.2.tags ∧
    (RecipeSerializer.update ⟨[], 0, ⟨[], 0⟩, ⟨[], 0⟩⟩ 1
      ⟨1, "T", "D", 5, 100, "L", [], []⟩ ⟨some ["Lunch"], none, []⟩).2.user = 1 := by
  have h1 := same_owner_relation_invariant ⟨[], 0, ⟨[], 0⟩, ⟨[], 0⟩⟩ 1 "T" "D" "L" 5 100
    ["Vegan"] [] ⟨1, "T", "D", 5, 100, "L", [], []⟩ ⟨some ["Lunch"], none, []⟩
  exact ⟨h1.1.2.1, (h1.2 rfl (ownedRows_nil _ 1) (ownedRows_nil _ 1)).1⟩

/-! ### Email normalization lemmas -/

theorem splitAtLastAmp_of_not_mem (cs : List Char) (h : '@' ∉ cs) :
    splitAtLastAmp cs = none := by
  induction cs with
  | nil => rfl
  | cons c rest ih =>
    rw [List.mem_cons] at h
    push_neg at h
    rw [splitAtLastAmp, ih h.2, if_neg (fun hc => h.1 hc.symm)]

theorem splitAtLastAmp_append (lp dom : List Char) (hd : '@' ∉ dom) :
    splitAtLastAmp (lp ++ '@' :: dom) = some (lp, dom) := by
  induction lp with
  | nil =>
    show splitAtLastAmp ('@' :: dom) = some ([], dom)
    rw [splitAtLastAmp, splitAtLastAmp_of_not_mem dom hd, if_pos rfl]
  | cons c lp' ih =>
    show splitAtLastAmp (c :: (lp' ++ '@' :: dom)) = some (c :: lp', dom)
    rw [splitAtLastAmp, ih]

theorem normalizeEmail_split (lp dom : List Char) (hd : '@' ∉ dom) :
    normalizeEmail ⟨lp ++ '@' :: dom⟩ = ⟨lp ++ '@' :: dom.map Char.toLower⟩ := by
  show (match splitAtLastAmp (lp ++ '@' :: dom) with
    | some (l, r) => (⟨l ++ '@' :: r.map Char.toLower⟩ : String)
    | none => (⟨lp ++ '@' :: dom⟩ : String)) = ⟨lp ++ '@' :: dom.map Char.toLower⟩
  rw [splitAtLastAmp_append lp dom hd]

/-- C7: `create_user` with an absent or empty identity key fails (the
malformed-input error of the error taxonomy) and no user is persisted — there
is no store/user pair the call can succeed with. -/
theorem createUser_requires_email (st : UserStore) (email : Option String)
    (h : email = none ∨ email = some "") :
    UserManager.createUser st email = .error "Email must be provided." ∧
    ∀ (st' : UserStore) (row : UserRow),
      UserManager.createUser st email ≠ .ok (st', row) := by
  have h1 : UserManager.createUser st email = .error "Email must be provided." := by
    rcases h with rfl | rfl
    · rfl
    · rfl
  refine ⟨h1, ?_⟩
  intro st' row hcontra
  rw [h1] at hcontra
  exact Except.noConfusion hcontra

/-- Witness for C7: calling `create_user` with no email on the empty store
fails with the email-required error. -/
theorem createUser_requires_email_witness :
    UserManager.createUser ⟨[], 0⟩ none = .error "Email must be provided." :=
  (createUser_requires_email ⟨[], 0⟩ none (Or.inl rfl)).1

/-- C8: for every non-empty email of the shape `local ++ '@' ++ domain`,
`create_user` persists the address with the domain portion (after the `'@'`)
case-folded to lowercase and the local part left unaltered, and returns the
stored user. -/
theorem createUser_normalizes_email (st : UserStore) (lp dom : List Char)
    (hd : '@' ∉ dom) :
    ∃ row : UserRow,
      UserManager.createUser st (some ⟨lp ++ '@' :: dom⟩) =
        .ok (⟨st.users ++ [row], st.nextId + 1⟩, row) ∧
      row.email = ⟨lp ++ '@' :: dom.map Char.toLower⟩ := by
  have hne : (⟨lp ++ '@' :: dom⟩ : String) ≠ "" := by
    intro hcontra
    have hdata : lp ++ '@' :: dom = [] := congrArg String.data hcontra
    simp at hdata
  refine ⟨⟨st.nextId, normalizeEmail ⟨lp ++ '@' :: dom⟩⟩, ?_, ?_⟩
  · simp only [UserManager.createUser]
    rw [if_neg hne]
  · exact normalizeEmail_split lp dom hd

/-- Witness for C8: creating a user with `Test2@EXAMPLE.com` stores
`Test2@example.com` — the domain is lowercased, the local part kept. -/
theorem createUser_normalizes_email_witness :
    ∃ row : UserRow,
      UserManager.createUser ⟨[], 0⟩ (some ⟨"Test2".data ++ '@' :: "EXAMPLE.com".data⟩) =
        .ok (⟨[] ++ [row], 0 + 1⟩, row) ∧
      row.email = ⟨"Test2".data ++ '@' :: "EXAMPLE.com".data.map Char.toLower⟩ :=
  createUser_normalizes_email ⟨[], 0⟩ "Test2".data "EXAMPLE.com".data (by decide)

/-- C1: ownership isolation of the list operations — an entity owned by `u1`
never appears in the unfiltered list results of a different owner `u2`, for
recipes, tags and ingredients alike. -/
theorem listEndpoints_ownership_isolation (db : Db) (u1 u2 : Nat) (hne : u1 ≠ u2) :
    (∀ (rid : Nat) (e : Recipe), e.user = u1 → (rid, e) ∉ listRecipes db u2) ∧
    (∀ e : Row, e.user = u1 → e ∉ listTags db u2) ∧
    (∀ e : Row, e.user = u1 → e ∉ listIngredients db u2) := by
  refine ⟨?_, ?_, ?_⟩
  · intro rid e he hmem
    rw [listRecipes, List.mem_reverse, List.mem_filter] at hmem
    have h2 : e.user = u2 := by simpa using hmem.2
    exact hne (by rw [← he, h2])
  · intro e he hmem
    rw [listTags, mem_sortByNameDesc, List.mem_filter] at hmem
    have h2 : e.user = u2 := by simpa using hmem.2
    exact hne (by rw [← he, h2])
  · intro e he hmem
    rw [listIngredients, mem_sortByNameDesc, List.mem_filter] at hmem
    have h2 : e.user = u2 := by simpa using hmem.2
    exact hne (by rw [← he, h2])

/-- Witness for C1: user 1's tag `Vegan` is absent from user 2's tag list. -/
theorem listEndpoints_ownership_isolation_witness :
    (⟨0, 1, "Vegan"⟩ : Row) ∉ listTags ⟨[], 0, ⟨[⟨0, 1, "Vegan"⟩], 1⟩, ⟨[], 0⟩⟩ 2 :=
  (listEndpoints_ownership_isolation ⟨[], 0, ⟨[⟨0, 1, "Vegan"⟩], 1⟩, ⟨[], 0⟩⟩ 1 2
    (by decide)).2.1 ⟨0, 1, "Vegan"⟩ rfl

/-- C5: cross-owner write rejection — an update or delete attempt by `u2` on a
recipe owned by a different `u1` fails with the not-found-equivalent error, and
since the error path hands the caller's database back unchanged, the recipe and
all its fields are untouched. -/
theorem crossOwner_write_rejected (db : Db) (u1 u2 rid : Nat) (e : Recipe)
    (vd : ValidatedData) (_hmem : (rid, e) ∈ db.recipes) (he : e.user = u1) (hne : u1 ≠ u2)
    (huniq : ∀ p ∈ db.recipes, p.1 = rid → p.2 = e) :
    updateRecipeEndpoint db u2 rid vd = .error .notFound ∧
    deleteRecipeEndpoint db u2 rid = .error .notFound := by
  have hobj : getObject db u2 rid = none := by
    rw [getObject, List.find?_eq_none]
    intro p hp hcontra
    simp only [Bool.and_eq_true, beq_iff_eq] at hcontra
    have hpe : p.2 = e := huniq p hp hcontra.1
    apply hne
    rw [← he, ← hcontra.2, hpe]
  constructor
  · rw [updateRecipeEndpoint, hobj]
  · rw [deleteRecipeEndpoint, hobj]

/-- Witness for C5: user 2 updating or deleting user 1's only recipe gets
not-found. -/
theorem crossOwner_write_rejected_witness :
    updateRecipeEndpoint ⟨[(0, ⟨1, "T", "D", 5, 100, "L", [], []⟩)], 1, ⟨[], 0⟩, ⟨[], 0⟩⟩
        2 0 ⟨none, none, []⟩ = .error .notFound ∧
    deleteRecipeEndpoint ⟨[(0, ⟨1, "T", "D", 5, 100, "L", [], []⟩)], 1, ⟨[], 0⟩, ⟨[], 0⟩⟩
        2 0 = .error .notFound :=
  crossOwner_write_rejected ⟨[(0, ⟨1, "T", "D", 5, 100, "L", [], []⟩)], 1, ⟨[], 0⟩, ⟨[], 0⟩⟩
    1 2 0 ⟨1, "T", "D", 5, 100, "L", [], []⟩ ⟨none, none, []⟩ (by simp) rfl (by decide)
    (by intro p hp h1; rw [List.mem_singleton] at hp; rw [hp])

theorem mem_assignedRows (recipes : List (Nat × Recipe)) (rows : List Row)
    (proj : Recipe → List Nat) (owner : Nat) (e : Row) :
    e ∈ assignedRows recipes rows proj owner ↔
      (e.user = owner ∧ e ∈ rows ∧ ∃ p ∈ recipes, p.2.user = owner ∧ e.id ∈ proj p.2) := by
  rw [assignedRows, List.mem_flatMap]
  constructor
  · rintro ⟨p, hp, he⟩
    rw [List.mem_filter] at hp he
    have h1 : p.2.user = owner := by simpa using hp.2
    have h2 : e.user = owner ∧ e.id ∈ proj p.2 := by simpa using he.2
    exact ⟨h2.1, he.1, p, hp.1, h1, h2.2⟩
  · rintro ⟨hu, hrow, p, hp, hpu, hid⟩
    refine ⟨p, ?_, ?_⟩
    · rw [List.mem_filter]
      exact ⟨hp, by simpa using hpu⟩
    · rw [List.mem_filter]
      exact ⟨hrow, by simp [hu, hid]⟩

/-- C6: assigned-only filter semantics — listing tags (or ingredients) with
`assigned_only=true` returns exactly the owner's entities attached to at least
one of the owner's recipes, each exactly once (the result has no duplicates,
even when an entity is attached to several recipes); entities attached to no
recipe are excluded. -/
theorem assignedOnly_filter_semantics (db : Db) (owner : Nat) :
    (∀ e : Row, e ∈ listTagsAssignedOnly db owner ↔
      (e.user = owner ∧ e ∈ db.tagStore.rows ∧
        ∃ p ∈ db.recipes, p.2.user = owner ∧ e.id ∈ p.2.tags)) ∧
    (listTagsAssignedOnly db owner).Nodup ∧
    (∀ e : Row, e ∈ listIngredientsAssignedOnly db owner ↔
      (e.user = owner ∧ e ∈ db.ingredientStore.rows ∧
        ∃ p ∈ db.recipes, p.2.user = owner ∧ e.id ∈ p.2.ingredients)) ∧
    (listIngredientsAssignedOnly db owner).Nodup := by
  refine ⟨?_, ?_, ?_, ?_⟩
  · intro e
    rw [listTagsAssignedOnly, mem_sortByNameDesc, List.mem_dedup, mem_assignedRows]
  · exact nodup_sortByNameDesc _ (List.nodup_dedup _)
  · intro e
    rw [listIngredientsAssignedOnly, mem_sortByNameDesc, List.mem_dedup, mem_assignedRows]
  · exact nodup_sortByNameDesc _ (List.nodup_dedup _)

/-- Witness for C6: user 1's tag `Vegan`, attached to both of user 1's
recipes, appears in the assigned-only tag list, and that list has no
duplicates. -/
theorem assignedOnly_filter_semantics_witness :
    (⟨0, 1, "Vegan"⟩ : Row) ∈ listTagsAssignedOnly
      ⟨[(0, ⟨1, "A", "D", 5, 100, "L", [0], []⟩), (1, ⟨1, "B", "D", 9, 200, "L", [0], []⟩)],
        2, ⟨[⟨0, 1, "Vegan"⟩], 1⟩, ⟨[], 0⟩⟩ 1 ∧
    (listTagsAssignedOnly
      ⟨[(0, ⟨1, "A", "D", 5, 100, "L", [0], []⟩), (1, ⟨1, "B", "D", 9, 200, "L", [0], []⟩)],
        2, ⟨[⟨0, 1, "Vegan"⟩], 1⟩, ⟨[], 0⟩⟩ 1).Nodup := by
  have h := assignedOnly_filter_semantics
    ⟨[(0, ⟨1, "A", "D", 5, 100, "L", [0], []⟩), (1, ⟨1, "B", "D", 9, 200, "L", [0], []⟩)],
      2, ⟨[⟨0, 1, "Vegan"⟩], 1⟩, ⟨[], 0⟩⟩ 1
  refine ⟨(h.1 ⟨0, 1, "Vegan"⟩).mpr ⟨rfl, List.mem_singleton.mpr rfl, ?_⟩, h.2.1⟩
  exact ⟨(0, ⟨1, "A", "D", 5, 100, "L", [0], []⟩), List.mem_cons_self _ _, rfl,
    List.mem_singleton.mpr rfl⟩

end RecipeApp
